import Mathlib

/-!
Verification of the sftp_rkfs virtual filesystem engine (crates sftp_rkfs and
rmkmount).  The development is a shallow embedding of the Rust sources:
pure functions become Lean functions, the mutable RemarkableFs state becomes
explicit state passing, machine integers become Nat with explicit wrapping
where the Rust arithmetic can wrap, and fallible code returns Except.
The remote SSH transport and the serde JSON decoder are external
collaborators of the engine; they are modelled as an explicit environment
record (Remote) of oracle functions, exactly at the call boundary the
Rust code uses them.
-/

namespace RkFs

/-! ### Constants: libc error codes and u64 bounds -/

/-- Linux libc EACCES. -/
def EACCES : Int := 13

/-- Linux libc EINVAL. -/
def EINVAL : Int := 22

/-- Linux libc ENOENT. -/
def ENOENT : Int := 2

/-- Linux libc EBADFD. -/
def EBADFD : Int := 77

/-- Linux libc ENOSYS. -/
def ENOSYS : Int := 38

/-- One past the largest u64 value. -/
def U64MOD : Nat := 2 ^ 64

/-- Largest u64 value, as in u64 max_value in Node::open. -/
def U64MAX : Nat := 2 ^ 64 - 1

/-- Wrapping u64 subtraction: Rust release-mode semantics of a - b on u64
(a debug build panics on underflow instead).  Used to embed the
subtraction at fs.rs line 200. -/
def u64_wrapping_sub (a b : Nat) : Nat := (a + U64MOD - b % U64MOD) % U64MOD

/-- The cast offset as u64 applied by fs.rs to the i64 read offset:
two-complement reinterpretation. -/
def intAsU64 (i : Int) : Nat := (i % (U64MOD : Int)).toNat

/-! ### Path model

The engine manipulates std::path paths.  The claims only need the
file-name level semantics: file_stem, extension and set_extension of the
final component, and PathBuf::push.  Paths are modelled as Strings; the
splitting rules below follow the documented std::path semantics: the
extension of a file name is the part after the final dot, except that a
name whose only dot is a leading dot has no extension, and the special
names, empty, dot and dot-dot, have no file name at all. -/

/-- Splits a list at the LAST occurrence of the character c, returning the
parts before and after it; none when c does not occur. -/
def splitAtLast (c : Char) : List Char → Option (List Char × List Char)
  | [] => none
  | x :: xs =>
    match splitAtLast c xs with
    | some (b, a) => some (x :: b, a)
    | none => if x = c then some ([], xs) else none

/-- The final path component (after the last slash), or none for the empty
name and the special names dot and dot-dot, following Path::file_name. -/
def fileNameL (p : List Char) : Option (List Char) :=
  match splitAtLast '/' p with
  | some pr =>
    if pr.2 = [] ∨ pr.2 = ['.'] ∨ pr.2 = ['.', '.'] then none else some pr.2
  | none =>
    if p = [] ∨ p = ['.'] ∨ p = ['.', '.'] then none else some p

/-- Splits a file name at its final dot into stem and extension, following
the std::path rule: no dot, or only a leading dot, means no extension. -/
def rsplitFileAtDot (f : List Char) : List Char × Option (List Char) :=
  match splitAtLast '.' f with
  | none => (f, none)
  | some (b, a) => if b = [] then (f, none) else (b, some a)

/-- Path::file_stem on the String path model. -/
def fileStem (p : String) : Option String :=
  (fileNameL p.toList).map (fun f => List.asString (rsplitFileAtDot f).1)

/-- The truncation step of PathBuf::set_extension: the path with the
current extension of its file name f (dot included) stripped, or the
whole path when f has no extension. -/
def setExtBase (p : String) (f : List Char) : List Char :=
  match (rsplitFileAtDot f).2 with
  | some e => p.toList.take (p.toList.length - (e.length + 1))
  | none => p.toList

/-- PathBuf::set_extension on the String path model: strips the current
extension of the final component (when there is one) and appends a dot and
the new extension; a path without a file name is returned unchanged. -/
def setExtension (p : String) (ext : String) : String :=
  match fileNameL p.toList with
  | none => p
  | some f =>
    if ext.toList = [] then List.asString (setExtBase p f)
    else List.asString (setExtBase p f ++ '.' :: ext.toList)

/-- PathBuf::push on the String path model (relative child component). -/
def pathPush (p : String) (c : String) : String :=
  if p = "" then c
  else if p.toList.getLast? = some '/' then p ++ c
  else p ++ "/" ++ c

/-- Rust str::split on a newline character: embeds the
cmd_res.split of fs.rs line 472. -/
def splitLinesAux : List Char → List (List Char)
  | [] => [[]]
  | c :: rest =>
    match splitLinesAux rest with
    | [] => [[c]]
    | h :: t => if c = '\n' then [] :: h :: t else (c :: h) :: t

/-- String split on newlines, as a String-level wrapper of splitLinesAux. -/
def splitNewlines (s : String) : List String :=
  (splitLinesAux s.toList).map List.asString

/-! ### Errors (lib.rs RemarkableError)

The payloads of the transparent wrapper variants (ssh2, io and serde
errors) are not inspected by the engine, so they carry no data here. -/

/-- Embeds lib.rs RemarkableError. -/
inductive RemarkableError
  | Ssh2Error
  | IoError
  | JsonError
  | NodeDuplicated
  | NodeNotFound (ino : Nat)
  | NodeIoError (code : Int)
  | RkError (msg : String)
deriving DecidableEq

/-! ### Remote metadata records (nodes.rs serde structures) -/

/-- Embeds nodes.rs RkNodeType. -/
inductive RkNodeType
  | CollectionType
  | DocumentType
deriving DecidableEq

/-- Embeds nodes.rs RkFileType. -/
inductive RkFileType
  | EPUB
  | PDF
  | Notebook
  | Lines
deriving DecidableEq

/-- Embeds nodes.rs RkMetadata (the decoded descriptor record). -/
structure RkMetadata where
  deleted : Option Bool
  last_modified : Nat
  created_time : Option Nat
  metadatamodified : Option Bool
  modified : Option Bool
  parent : String
  pinned : Bool
  synced : Option Bool
  type_ : RkNodeType
  version : Int
  visible_name : String
deriving DecidableEq

/-- Embeds RkMetadata::from_str (the all-default record used for the root
and trash sentinels). -/
def RkMetadata.from_str (visible_name : String) : RkMetadata :=
  { deleted := none, last_modified := 0, created_time := none,
    metadatamodified := none, modified := none, parent := "",
    pinned := false, synced := none, type_ := RkNodeType.CollectionType,
    version := 0, visible_name := visible_name }

/-- Embeds nodes.rs RkContents.  The formatting fields (font, margins,
zoom, orientation and so on) are never read by any engine function, so
only the fields the engine consults are carried. -/
structure RkContents where
  file_type : RkFileType
  page_count : Nat
deriving DecidableEq

/-- Embeds nodes.rs RkContentChoice (an untagged union: either a decoded
content record or an empty object).  The constructor name keeps the
spelling of the source. -/
inductive RkContentChoice
  | HasSome (c : RkContents)
  | Emtpy
deriving DecidableEq

/-! ### Remote stat snapshots (sshutils.rs SshFileStat) -/

/-- Embeds sshutils.rs SshFileStat: a remote path together with the
optional ssh2 stat fields. -/
structure SshFileStat where
  path : String
  size : Option Nat
  uid : Option Nat
  gid : Option Nat
  perm : Option Nat
  atime : Option Nat
  mtime : Option Nat
deriving DecidableEq

/-- SshFileStat::INVALID_UID. -/
def SshFileStat.INVALID_UID : String := "INVALID-UID-0000"

/-- Embeds SshFileStat::default: the invalid path and an all-unset stat
(the builder starts with no attribute flags, so every field is None). -/
def SshFileStat.defaultStat : SshFileStat :=
  { path := SshFileStat.INVALID_UID, size := none, uid := none, gid := none,
    perm := none, atime := none, mtime := none }

/-- libssh2 directory bit used by SshFileStatBuilder::set_dir. -/
def LIBSSH2_SFTP_S_IFDIR : Nat := 0o040000

/-- Embeds SshFileStat::build_from_special_path.  The Rust code stamps the
current wall-clock time into atime and mtime; the time is passed
explicitly as now. -/
def SshFileStat.build_from_special_path (special : String) (now : Nat) : SshFileStat :=
  { path := special, size := some 0, uid := some 0, gid := some 0,
    perm := some (0o444 ||| LIBSSH2_SFTP_S_IFDIR),
    atime := some now, mtime := some now }

/-- Embeds SshFileStat::get_time_from: seconds since the epoch, defaulting
to 0 (the checked_add against SystemTime cannot overflow in the Nat
model). -/
def SshFileStat.get_time_from (t : Option Nat) : Nat := t.getD 0

/-- Embeds SshFileStat::unique_id: the file stem of the path, or the
invalid-uid constant. -/
def SshFileStat.unique_id (s : SshFileStat) : String :=
  match fileStem s.path with
  | some f => f
  | none => SshFileStat.INVALID_UID

/-- Embeds SshFileStat::perm: permission bits masked to 0o777, defaulting
to 0o755. -/
def SshFileStat.permVal (s : SshFileStat) : Nat :=
  match s.perm with
  | some p => p &&& 0o777
  | none => 0o755

/-- Embeds SshFileStat::is_more_recent_than: compares mtimes with a
default of 0 for an unset mtime. -/
def SshFileStat.is_more_recent_than (s other : SshFileStat) : Bool :=
  decide (other.mtime.getD 0 < s.mtime.getD 0)

/-! ### Directory entries and nodes (nodes.rs) -/

/-- The two fuser file kinds the engine produces. -/
inductive FileType
  | Directory
  | RegularFile
deriving DecidableEq

/-- Embeds nodes.rs FuserChild: a directory-entry summary
(inode, listing offset, kind, display name). -/
structure FuserChild where
  ino : Nat
  ofs : Nat
  kind : FileType
  name : String
deriving DecidableEq

/-- Embeds FuserChild::new. -/
def FuserChild.new (ino ofs : Nat) (kind : FileType) (name : String) : FuserChild :=
  ⟨ino, ofs, kind, name⟩

/-- Embeds nodes.rs Node. -/
structure Node where
  ino : Nat
  metadata : Option RkMetadata
  content : Option RkContentChoice
  filestat : SshFileStat
  parent : Nat
  children : List FuserChild
  handles : Nat
deriving DecidableEq

/-- Node::INVALID_NODE_INO. -/
def Node.INVALID_NODE_INO : Nat := 0

/-- Node::INVALID_NODE_NAME. -/
def Node.INVALID_NODE_NAME : String := "<Invalid Node>"

/-- Node::ROOT_NODE_UID. -/
def Node.ROOT_NODE_UID : String := ""

/-- Node::ROOT_NODE_PATH. -/
def Node.ROOT_NODE_PATH : String := "/"

/-- Node::ROOT_NODE_INO (fuser FUSE_ROOT_ID is 1). -/
def Node.ROOT_NODE_INO : Nat := 1

/-- Node::TRASH_NODE_UID. -/
def Node.TRASH_NODE_UID : String := ".Trash"

/-- Node::TRASH_NODE_PATH. -/
def Node.TRASH_NODE_PATH : String := ".Trash"

/-- Node::TRASH_NODE_INO. -/
def Node.TRASH_NODE_INO : Nat := Node.ROOT_NODE_INO + 1

/-- Node::CONTENT_EXTENSION. -/
def Node.CONTENT_EXTENSION : String := "content"

/-- Embeds Node::new. -/
def Node.new (ino : Nat) (filestat : SshFileStat) : Node :=
  { ino := ino, metadata := none, content := none, filestat := filestat,
    parent := 0, children := [], handles := 0 }

/-- Embeds Node::new_root (now is the wall-clock time stamped into the
synthetic stat). -/
def Node.new_root (now : Nat) : Node :=
  { ino := Node.ROOT_NODE_INO,
    metadata := some (RkMetadata.from_str Node.ROOT_NODE_PATH),
    content := none,
    filestat := SshFileStat.build_from_special_path Node.ROOT_NODE_UID now,
    parent := 0, children := [], handles := 0 }

/-- Embeds Node::new_trash. -/
def Node.new_trash (now : Nat) : Node :=
  { ino := Node.TRASH_NODE_INO,
    metadata := some (RkMetadata.from_str Node.TRASH_NODE_PATH),
    content := none,
    filestat := SshFileStat.build_from_special_path Node.TRASH_NODE_UID now,
    parent := Node.ROOT_NODE_INO, children := [], handles := 0 }

/-- Embeds Node::from_metadata after the serde decode step succeeded; the
decode itself is the external Decoder collaborator (Remote.decode_metadata)
and its failure is handled at the call site. -/
def Node.from_metadata (ino parent : Nat) (filestat : SshFileStat) (m : RkMetadata) : Node :=
  { ino := ino, metadata := some m, content := none, filestat := filestat,
    parent := parent, children := [], handles := 0 }

/-- Embeds Node::root_children.  The body of the Rust function is a
commented-out block that would synthesize the trash child for the root;
what remains returns the empty vector for every inode. -/
def Node.root_children (_ino : Nat) : List SshFileStat := []

/-- Embeds Node::is_root. -/
def Node.is_root (n : Node) : Bool := decide (n.ino = Node.ROOT_NODE_INO)

/-- Embeds Node::is_trash. -/
def Node.is_trash (n : Node) : Bool := decide (n.ino = Node.TRASH_NODE_INO)

/-- Embeds Node::is_document. -/
def Node.is_document (n : Node) : Bool :=
  match n.metadata with
  | some m =>
    match m.type_ with
    | RkNodeType.DocumentType => true
    | RkNodeType.CollectionType => false
  | none => false

/-- Embeds Node::open (the name open is a Lean keyword).  Fails with an
EACCES io error at the maximal u64 handle count, otherwise increments the
count and returns it. -/
def Node.openHandle (n : Node) : Except RemarkableError (Node × Nat) :=
  if n.handles < U64MAX then
    Except.ok ({ n with handles := n.handles + 1 }, n.handles + 1)
  else
    Except.error (RemarkableError.NodeIoError EACCES)

/-- Embeds Node::close.  Fails with an EINVAL io error at a zero handle
count, otherwise decrements the count and returns it. -/
def Node.closeHandle (n : Node) : Except RemarkableError (Node × Nat) :=
  if 0 < n.handles then
    Except.ok ({ n with handles := n.handles - 1 }, n.handles - 1)
  else
    Except.error (RemarkableError.NodeIoError EINVAL)

/-- Embeds Node::get_kind (the decoded node type, when known). -/
def Node.get_kind (n : Node) : Option RkNodeType :=
  n.metadata.map (fun m => m.type_)

/-- Embeds Node::get_kind_for_fuser. -/
def Node.get_kind_for_fuser (n : Node) : FileType :=
  match n.get_kind with
  | some RkNodeType.DocumentType => FileType.RegularFile
  | some RkNodeType.CollectionType => FileType.Directory
  | none => FileType.Directory

/-- Embeds Node::get_links. -/
def Node.get_links (n : Node) : Nat :=
  if n.get_kind_for_fuser = FileType.Directory then 2 else 1

/-- Embeds Node::get_basename. -/
def Node.get_basename (n : Node) : Option String :=
  if n.ino = Node.ROOT_NODE_INO then some Node.ROOT_NODE_PATH
  else if n.ino = Node.TRASH_NODE_INO then some Node.TRASH_NODE_PATH
  else n.metadata.map (fun m => m.visible_name)

/-- Embeds Node::get_extension. -/
def Node.get_extension (n : Node) : Option String :=
  match n.content with
  | some (RkContentChoice.HasSome c) =>
    match c.file_type with
    | RkFileType.PDF => some "pdf"
    | RkFileType.EPUB => some "epub"
    | RkFileType.Lines => none
    | RkFileType.Notebook => none
  | _ => none

/-- Embeds Node::get_visible_name: the base name with set_extension
applied when the node has an extension. -/
def Node.get_visible_name (n : Node) : String :=
  match n.get_extension with
  | some ext => setExtension (n.get_basename.getD Node.INVALID_NODE_NAME) ext
  | none => n.get_basename.getD Node.INVALID_NODE_NAME

/-- Embeds Node::get_unique. -/
def Node.get_unique (n : Node) : String := n.filestat.unique_id

/-- Embeds Node::get_content_path. -/
def Node.get_content_path (n : Node) (document_root : String) : String :=
  setExtension (pathPush document_root n.get_unique) Node.CONTENT_EXTENSION

/-- Embeds Node::get_target_file_path. -/
def Node.get_target_file_path (n : Node) (document_root : String) : Option String :=
  n.get_extension.map (fun ext => setExtension (pathPush document_root n.get_unique) ext)

/-- Embeds Node::get_size: documents report the stat size only when the
content resolves to pdf or epub (0 otherwise); collections report the raw
stat size; no metadata reports 0. -/
def Node.get_size (n : Node) : Nat :=
  match n.metadata with
  | some m =>
    match m.type_ with
    | RkNodeType.DocumentType =>
      match n.content with
      | some (RkContentChoice.HasSome c) =>
        match c.file_type with
        | RkFileType.PDF => n.filestat.size.getD 0
        | RkFileType.EPUB => n.filestat.size.getD 0
        | RkFileType.Notebook => 0
        | RkFileType.Lines => 0
      | _ => 0
    | RkNodeType.CollectionType => n.filestat.size.getD 0
  | none => 0

/-- Embeds Node::get_ctime (taken from the stat mtime in the source). -/
def Node.get_ctime (n : Node) : Nat := SshFileStat.get_time_from n.filestat.mtime

/-- Embeds Node::get_atime. -/
def Node.get_atime (n : Node) : Nat := SshFileStat.get_time_from n.filestat.atime

/-- Embeds Node::get_mtime. -/
def Node.get_mtime (n : Node) : Nat := SshFileStat.get_time_from n.filestat.mtime

/-- Embeds Node::get_uid. -/
def Node.get_uid (n : Node) : Nat := n.filestat.uid.getD 0

/-- Embeds Node::get_gid. -/
def Node.get_gid (n : Node) : Nat := n.filestat.gid.getD 0

/-- Embeds Node::get_perm. -/
def Node.get_perm (n : Node) : Nat := n.filestat.permVal

/-- Embeds Node::get_parent. -/
def Node.get_parent (n : Node) : Nat := n.parent

/-- Embeds Node::set_parent. -/
def Node.set_parent (n : Node) (parent : Nat) : Node := { n with parent := parent }

/-- Embeds Node::get_children.  The Rust body is the slice expression
children[iofs..], which panics when iofs exceeds the vector length; the
none result models that panic. -/
def Node.get_children (n : Node) (iofs : Nat) : Option (List FuserChild) :=
  if iofs ≤ n.children.length then some (n.children.drop iofs) else none

/-- Embeds Node::get_children_ino. -/
def Node.get_children_ino (n : Node) : List Nat := n.children.map FuserChild.ino

/-- Embeds Node::set_children (the incoming vector is taken wholesale,
replacing the previous list). -/
def Node.set_children (n : Node) (children : List FuserChild) : Node :=
  { n with children := children }

/-- Embeds Node::needs_updating: never for root or trash, otherwise when
no metadata is cached yet or the observed stat is more recent than the
cached one. -/
def Node.needs_updating (n : Node) (newfstat : SshFileStat) : Bool :=
  !n.is_root && !n.is_trash &&
    (n.metadata.isNone || newfstat.is_more_recent_than n.filestat)

/-- Embeds Node::update_metadata after the serde decode step succeeded (a
decode failure leaves the node unchanged and propagates the error at the
call site): stores the new parent and metadata and swaps in the new
stat. -/
def Node.update_metadata (n : Node) (newfstat : SshFileStat) (parent_ino : Nat)
    (m : RkMetadata) : Node :=
  { n with parent := parent_ino, metadata := some m, filestat := newfstat }

/-- Embeds Node::update_content after the serde decode step succeeded. -/
def Node.update_content (n : Node) (c : RkContentChoice) : Node :=
  { n with content := some c }

/-- Embeds Node::update_target_fstat: swaps the target stat into the
node. -/
def Node.update_target_fstat (n : Node) (filestat : SshFileStat) : Node :=
  { n with filestat := filestat }

/-! ### Attribute blocks (fs.rs From Node for fuser FileAttr) -/

/-- RemarkableFsBuilder::FB_BLOCK_SIZE. -/
def FB_BLOCK_SIZE : Nat := 512

/-- Embeds fuser::FileAttr as produced by the From Node conversion
(rdev and flags are the constant 0 and are dropped). -/
structure FileAttr where
  ino : Nat
  size : Nat
  blocks : Nat
  atime : Nat
  mtime : Nat
  ctime : Nat
  crtime : Nat
  kind : FileType
  perm : Nat
  nlink : Nat
  uid : Nat
  gid : Nat
  blksize : Nat
deriving DecidableEq

/-- Embeds the From Node conversion to fuser::FileAttr in fs.rs. -/
def Node.toFileAttr (n : Node) : FileAttr :=
  { ino := n.ino, size := n.get_size,
    blocks := (n.get_size + FB_BLOCK_SIZE - 1) / FB_BLOCK_SIZE,
    atime := n.get_atime, mtime := n.get_mtime, ctime := n.get_ctime,
    crtime := n.get_ctime, kind := n.get_kind_for_fuser, perm := n.get_perm,
    nlink := n.get_links, uid := n.get_uid, gid := n.get_gid,
    blksize := FB_BLOCK_SIZE }

/-! ### The external collaborators (sshutils.rs SshWrapper and the serde
decoder), modelled as an oracle environment.  read_as_bytes models
SshWrapper::read_as_bytes: on success the whole caller buffer of the
requested length is filled (read_exact semantics); the returned list is
the filled buffer content. -/

/-- Oracle record for the remote transport and the JSON decoder. -/
structure Remote where
  read_as_string : String → Except RemarkableError String
  read_as_bytes : String → Nat → Nat → Except RemarkableError (List Nat)
  stat : String → Except RemarkableError SshFileStat
  execute_cmd : String → Except RemarkableError String
  decode_metadata : String → Except RemarkableError RkMetadata
  decode_content : String → Except RemarkableError RkContentChoice

/-- Embeds SshWrapper::stat_files: stats every listed path, short-circuits
on the first failure. -/
def stat_files (env : Remote) (files : List String) :
    Except RemarkableError (List SshFileStat) :=
  files.mapM env.stat

/-! ### The filesystem engine state (fs.rs RemarkableFs) -/

/-- Embeds fs.rs RemarkableFs: the node arena and the secondary index from
remote unique id to inode.  The HashMap is modelled as an association
list with first-match lookup; keys are only ever inserted when absent.
The ssh session lives in the Remote oracles and the mount point is not
consulted by any engine operation. -/
structure RemarkableFs where
  document_root : String
  nodes : List Node
  uidMap : List (String × Nat)
deriving DecidableEq

/-- Embeds RemarkableFs::new (empty arena, empty uid map). -/
def RemarkableFs.new (document_root : String) : RemarkableFs :=
  { document_root := document_root, nodes := [], uidMap := [] }

/-- Embeds RemarkableFs::get_node: some node exactly when the inode is
strictly between the invalid sentinel 0 and the table length. -/
def RemarkableFs.get_node (fs : RemarkableFs) (ino : Nat) : Option Node :=
  if h : ino < fs.nodes.length ∧ Node.INVALID_NODE_INO < ino then
    some (fs.nodes.get ⟨ino, h.1⟩)
  else none

/-- Writes back a node at an inode (the RefCell borrow_mut mutation of the
Rust code, made explicit). -/
def RemarkableFs.set_node (fs : RemarkableFs) (ino : Nat) (n : Node) : RemarkableFs :=
  { fs with nodes := fs.nodes.set ino n }

/-- Embeds RemarkableFs::get_node_unique_id. -/
def RemarkableFs.get_node_unique_id (fs : RemarkableFs) (ino : Nat) : Option String :=
  if ino = Node.ROOT_NODE_INO then some Node.ROOT_NODE_UID
  else (fs.get_node ino).map Node.get_unique

/-- Embeds RemarkableFs::init_root: pushes the invalid sentinel, the root
and the trash node, and maps their reserved uids.  now is the wall-clock
time the Rust code stamps into the synthetic stats. -/
def RemarkableFs.init_root (fs : RemarkableFs) (now : Nat) : RemarkableFs :=
  let nodes1 := fs.nodes ++ [Node.new Node.INVALID_NODE_INO SshFileStat.defaultStat]
  let nodes2 := nodes1 ++ [Node.new_root now]
  let map1 := (Node.ROOT_NODE_UID, Node.ROOT_NODE_INO) :: fs.uidMap
  let nodes3 := nodes2 ++ [(Node.new_trash now).set_parent Node.ROOT_NODE_INO]
  let map2 := (Node.TRASH_NODE_UID, Node.TRASH_NODE_INO) :: map1
  { fs with nodes := nodes3, uidMap := map2 }

/-- Embeds fs.rs lines 69 to 88: the body of the unknown-uid branch of
add_or_update_node_from_metadata that builds the fresh node, reading and
decoding its metadata, then for documents its content record, then the
stat of the renderable target when one exists. -/
def RemarkableFs.load_new_node (env : Remote) (fs : RemarkableFs)
    (nodeid parent_ino : Nat) (filestat : SshFileStat) :
    Except RemarkableError Node :=
  match env.read_as_string filestat.path with
  | Except.error e => Except.error e
  | Except.ok strmetadata =>
    match env.decode_metadata strmetadata with
    | Except.error e => Except.error e
    | Except.ok m =>
      if (Node.from_metadata nodeid parent_ino filestat m).is_document then
        match env.read_as_string
          ((Node.from_metadata nodeid parent_ino filestat m).get_content_path
            fs.document_root) with
        | Except.error e => Except.error e
        | Except.ok cstr =>
          match env.decode_content cstr with
          | Except.error e => Except.error e
          | Except.ok c =>
            match ((Node.from_metadata nodeid parent_ino filestat m).update_content
                c).get_target_file_path fs.document_root with
            | some target =>
              match env.stat target with
              | Except.error e => Except.error e
              | Except.ok fstat =>
                Except.ok (((Node.from_metadata nodeid parent_ino
                  filestat m).update_content c).update_target_fstat fstat)
            | none =>
              Except.ok ((Node.from_metadata nodeid parent_ino
                filestat m).update_content c)
      else Except.ok (Node.from_metadata nodeid parent_ino filestat m)

/-- Embeds RemarkableFs::add_or_update_node_from_metadata.  A known uid is
refreshed (metadata re-read and decoded) exactly when needs_updating
holds; an unknown uid allocates the next inode, loads the node and
records the mapping.  The unwrap on get_node in the Rust code would
panic on an unmapped inode; that is modelled as an RkError. -/
def RemarkableFs.add_or_update_node_from_metadata (env : Remote) (fs : RemarkableFs)
    (parent_ino : Nat) (filestat : SshFileStat) :
    Except RemarkableError (RemarkableFs × Node) :=
  match fs.uidMap.lookup filestat.unique_id with
  | some node_id =>
    match fs.get_node node_id with
    | none => Except.error (RemarkableError.RkError "unwrap on None")
    | some node =>
      if node.needs_updating filestat then
        match env.read_as_string filestat.path with
        | Except.error e => Except.error e
        | Except.ok strmetadata =>
          match env.decode_metadata strmetadata with
          | Except.error e => Except.error e
          | Except.ok m =>
            Except.ok (fs.set_node node_id (node.update_metadata filestat parent_ino m),
              node.update_metadata filestat parent_ino m)
      else Except.ok (fs, node)
  | none =>
    match fs.load_new_node env fs.nodes.length parent_ino filestat with
    | Except.error e => Except.error e
    | Except.ok node =>
      Except.ok (RemarkableFs.mk fs.document_root (fs.nodes ++ [node])
        ((filestat.unique_id, fs.nodes.length) :: fs.uidMap), node)

/-- Embeds RemarkableFs::lookup_node: the root-trash special case indexes
the node table directly (a panic on a table shorter than three entries,
modelled as an RkError); otherwise the cached children of the parent are
scanned by display name. -/
def RemarkableFs.lookup_node (fs : RemarkableFs) (parent_ino : Nat) (name : String) :
    Except RemarkableError (Option Node) :=
  if parent_ino = Node.ROOT_NODE_INO ∧ name = Node.TRASH_NODE_PATH then
    match fs.nodes[Node.TRASH_NODE_INO]? with
    | some n => Except.ok (some n)
    | none => Except.error (RemarkableError.RkError "index out of bounds")
  else
    match fs.get_node parent_ino with
    | some root_node =>
      let children := root_node.get_children_ino.map (fun i => fs.get_node i)
      Except.ok ((children.filterMap id).find?
        (fun n => n.get_visible_name == name))
    | none => Except.error (RemarkableError.NodeNotFound parent_ino)

/-- Embeds RemarkableFs::get_metadata_files_by_parent: derives the parent
uid, greps the remote document root for descriptors whose parent field
equals it, and stats the matched files.  The to_str conversion of the
document root never fails in the String model. -/
def RemarkableFs.get_metadata_files_by_parent (env : Remote) (fs : RemarkableFs)
    (parent_ino : Nat) : Except RemarkableError (List SshFileStat) :=
  match fs.get_node_unique_id parent_ino with
  | some n_id =>
    match env.execute_cmd ("grep -l \\\"parent\\\":\\ \\\"" ++ n_id ++ "\\\" "
        ++ fs.document_root ++ "*.metadata") with
    | Except.error e => Except.error e
    | Except.ok cmd_res =>
      stat_files env ((splitNewlines cmd_res).filter (fun s => !s.isEmpty))
  | none => Except.error (RemarkableError.NodeNotFound parent_ino)

/-- The filter_map loop of RemarkableFs::node_readdir (fs.rs lines 131 to
147): runs add_or_update_node_from_metadata on every enumerated candidate
stat, keeps an entry per success (recording the candidate position as the
listing offset) and drops failing candidates, threading the engine
state. -/
def readdirFold (env : Remote) (parent_ino : Nat) :
    List (Nat × SshFileStat) → RemarkableFs → List FuserChild × RemarkableFs
  | [], fs => ([], fs)
  | (o, f) :: rest, fs =>
    match fs.add_or_update_node_from_metadata env parent_ino f with
    | Except.ok (fs1, node) =>
      let entry := FuserChild.new node.ino o node.get_kind_for_fuser
        node.get_visible_name
      let r := readdirFold env parent_ino rest fs1
      (entry :: r.1, r.2)
    | Except.error _ => readdirFold env parent_ino rest fs

/-- Outcome of a directory read: the yielded entries, an engine error, or
the out-of-range slice panic of Node::get_children. -/
inductive ReadDirOutcome
  | entries (l : List FuserChild)
  | fsError (e : RemarkableError)
  | sliceOutOfBounds
deriving DecidableEq

/-- The store-back step of RemarkableFs::node_readdir (fs.rs lines 149 to
152): writes the assembled listing onto the directory node when the inode
resolves, replacing the previous list wholesale. -/
def RemarkableFs.node_readdir_update (node_ino : Nat)
    (r : List FuserChild × RemarkableFs) : RemarkableFs :=
  match r.2.get_node node_ino with
  | some rootnode => r.2.set_node node_ino (rootnode.set_children r.1)
  | none => r.2

/-- The offset-0 synchronization block of RemarkableFs::node_readdir
(fs.rs lines 125 to 154): lists the remote candidates, combines them with
the synthetic root children, folds add-or-update over the enumeration and
stores the listing.  The only early error exit is the remote listing
itself (candidate failures are dropped inside the fold). -/
def RemarkableFs.node_readdir_sync (env : Remote) (fs : RemarkableFs)
    (node_ino ioffset : Nat) : Except RemarkableError RemarkableFs :=
  if ioffset = 0 then
    match fs.get_metadata_files_by_parent env node_ino with
    | Except.error e => Except.error e
    | Except.ok read_children =>
      Except.ok (RemarkableFs.node_readdir_update node_ino
        (readdirFold env node_ino
          (Node.root_children node_ino ++ read_children).enum fs))
  else Except.ok fs

/-- The answer step of RemarkableFs::node_readdir (fs.rs lines 156 to
161): resolves the directory node and slices its stored children from the
requested offset. -/
def RemarkableFs.node_readdir_entries (fs1 : RemarkableFs)
    (node_ino ioffset : Nat) : ReadDirOutcome :=
  match fs1.get_node node_ino with
  | some root_node =>
    match root_node.get_children ioffset with
    | some l => ReadDirOutcome.entries l
    | none => ReadDirOutcome.sliceOutOfBounds
  | none => ReadDirOutcome.fsError (RemarkableError.NodeNotFound node_ino)

/-- Embeds RemarkableFs::node_readdir.  At offset 0 the child set is
re-synchronized from the remote store and stored on the directory node;
at any offset the stored list is then sliced from the offset.  An error
of the remote listing leaves the state untouched. -/
def RemarkableFs.node_readdir (env : Remote) (fs : RemarkableFs) (node_ino : Nat)
    (ioffset : Nat) : ReadDirOutcome × RemarkableFs :=
  match fs.node_readdir_sync env node_ino ioffset with
  | Except.error e => (ReadDirOutcome.fsError e, fs)
  | Except.ok fs1 => (fs1.node_readdir_entries node_ino ioffset, fs1)

/-- Embeds RemarkableFs::node_read_ofs_size.  The subtraction size minus
offset is u64 arithmetic and is embedded with wrapping semantics (a debug
build panics on underflow instead); the buffer handed to the transport has
exactly the computed length, so the padded truncation below keeps the
oracle honest about read_exact filling the whole buffer. -/
def RemarkableFs.node_read_ofs_size (env : Remote) (fs : RemarkableFs)
    (node_ino : Nat) (offset : Nat) (size : Nat) :
    Except RemarkableError (List Nat) :=
  match fs.get_node node_ino with
  | some node =>
    match node.get_target_file_path fs.document_root with
    | some fpath =>
      let sz := u64_wrapping_sub node.get_size offset
      let readsz := min sz size
      match env.read_as_bytes fpath offset readsz with
      | Except.ok bytes =>
        Except.ok ((bytes ++ List.replicate readsz 0).take readsz)
      | Except.error e => Except.error e
    | none => Except.error (RemarkableError.NodeNotFound node_ino)
  | none => Except.error (RemarkableError.NodeNotFound node_ino)

/-! ### The fuser operation adapter (fs.rs impl fuser::Filesystem) -/

/-- Replies of the fuser adapter that the claims consult. -/
inductive FuseReply
  | attr (a : FileAttr)
  | opened (fh : Nat)
  | dataBuf (buf : List Nat)
  | replyOk
  | errorCode (code : Int)
deriving DecidableEq

/-- Embeds the getattr operation: attribute block for a valid inode,
ENOENT otherwise.  No state is mutated. -/
def RemarkableFs.fuse_getattr (fs : RemarkableFs) (ino : Nat) : FuseReply :=
  match fs.get_node ino with
  | some node => FuseReply.attr node.toFileAttr
  | none => FuseReply.errorCode ENOENT

/-- Embeds the open operation: EBADFD for an invalid inode, the io error
code of Node::open on handle overflow, otherwise the new handle count. -/
def RemarkableFs.fuse_open (fs : RemarkableFs) (ino : Nat) : FuseReply × RemarkableFs :=
  match fs.get_node ino with
  | some node =>
    match node.openHandle with
    | Except.ok (node1, v) => (FuseReply.opened v, fs.set_node ino node1)
    | Except.error (RemarkableError.NodeIoError v) => (FuseReply.errorCode v, fs)
    | Except.error _ => (FuseReply.errorCode EBADFD, fs)
  | none => (FuseReply.errorCode EBADFD, fs)

/-- Embeds the release operation: EBADFD for an invalid inode, the io
error code of Node::close on a zero count, otherwise an ok reply. -/
def RemarkableFs.fuse_release (fs : RemarkableFs) (ino : Nat) : FuseReply × RemarkableFs :=
  match fs.get_node ino with
  | some node =>
    match node.closeHandle with
    | Except.ok (node1, _) => (FuseReply.replyOk, fs.set_node ino node1)
    | Except.error (RemarkableError.NodeIoError v) => (FuseReply.errorCode v, fs)
    | Except.error _ => (FuseReply.errorCode EBADFD, fs)
  | none => (FuseReply.errorCode EBADFD, fs)

/-- Embeds the read operation (fs.rs lines 350 to 380).  The guard is the
literal condition of the source, size greater than 0 OR offset negative;
only a zero-size non-negative-offset request falls into the EINVAL arm.
The i64 offset is cast to u64 exactly as the source does. -/
def RemarkableFs.fuse_read (env : Remote) (fs : RemarkableFs) (ino : Nat)
    (offset : Int) (size : Nat) : FuseReply :=
  if 0 < size ∨ offset < 0 then
    match fs.node_read_ofs_size env ino (intAsU64 offset) size with
    | Except.ok buffer => FuseReply.dataBuf buffer
    | Except.error (RemarkableError.NodeIoError e) => FuseReply.errorCode e
    | Except.error _ => FuseReply.errorCode EBADFD
  else FuseReply.errorCode EINVAL

/-! ### Concrete fixtures used by the counterexamples and witnesses -/

/-- The default remarkable document root (RemarkableFsBuilder::RK_ROOTPATH). -/
def XOCHITL : String := "/home/root/.local/share/remarkable/xochitl/"

/-- An oracle environment for a remote store with no descriptor files: the
grep reports no matches and every other remote or decode call fails. -/
def envNone : Remote :=
  { read_as_string := fun _ => Except.error RemarkableError.Ssh2Error
    read_as_bytes := fun _ _ _ => Except.error RemarkableError.Ssh2Error
    stat := fun _ => Except.error RemarkableError.Ssh2Error
    execute_cmd := fun _ => Except.ok ""
    decode_metadata := fun _ => Except.error RemarkableError.JsonError
    decode_content := fun _ => Except.error RemarkableError.JsonError }

/-- The engine state right after mount initialization (init_root at time 0
on a fresh table). -/
def fs0 : RemarkableFs := (RemarkableFs.new XOCHITL).init_root 0

/-- A remote stat snapshot of a pdf target file of size 10 for the
document with unique id doc1. -/
def statDoc : SshFileStat :=
  { path := XOCHITL ++ "doc1.pdf", size := some 10, uid := some 0,
    gid := some 0, perm := some 0o644, atime := some 5, mtime := some 5 }

/-- A decoded descriptor for a pdf document named Notes parented at the
root. -/
def docMeta : RkMetadata :=
  { deleted := none, last_modified := 7, created_time := none,
    metadatamodified := none, modified := none, parent := "",
    pinned := false, synced := none, type_ := RkNodeType.DocumentType,
    version := 1, visible_name := "Notes" }

/-- A fully resolved document node (metadata, pdf content record and
target stat) at inode 3. -/
def docNode : Node :=
  { ino := 3, metadata := some docMeta,
    content := some (RkContentChoice.HasSome ⟨RkFileType.PDF, 3⟩),
    filestat := statDoc, parent := 1, children := [], handles := 0 }

/-- The initialized engine state extended with the resolved document node
at inode 3. -/
def fsDoc : RemarkableFs :=
  { document_root := XOCHITL, nodes := fs0.nodes ++ [docNode],
    uidMap := ("doc1", 3) :: fs0.uidMap }

/-- An oracle environment whose byte reads succeed and fill the requested
buffer with the byte 7. -/
def envBytes : Remote :=
  { envNone with read_as_bytes := fun _ _ s => Except.ok (List.replicate s 7) }

/-! ### Engine invariants

The node arena stores, at every index, the node allocated with that inode
number; the uid map has pairwise distinct keys and pairwise distinct
inodes, all of them inside the arena.  These invariants are established
by init_root and preserved by every mutating operation. -/

/-- Every arena slot holds the node whose ino field is that slot index. -/
def InoIndexed (fs : RemarkableFs) : Prop :=
  ∀ (i : Nat) (n : Node), fs.nodes[i]? = some n → n.ino = i

/-- The uid map is well formed: distinct uids, distinct inodes, and every
mapped inode lies inside the arena. -/
def MapWF (fs : RemarkableFs) : Prop :=
  (fs.uidMap.map Prod.fst).Nodup ∧ (fs.uidMap.map Prod.snd).Nodup ∧
    ∀ p ∈ fs.uidMap, p.2 < fs.nodes.length

/-- The engine invariant. -/
def Inv (fs : RemarkableFs) : Prop := InoIndexed fs ∧ MapWF fs

/-- The uid map of the second state retains every binding of the first
(append-only mapping). -/
def lookupPreserved (fs fs2 : RemarkableFs) : Prop :=
  ∀ u i, fs.uidMap.lookup u = some i → fs2.uidMap.lookup u = some i

/-- One mutating engine operation, as dispatched by the fuser session:
open, release, or a directory read (which internally performs the
add-or-update calls of the tree materializer). -/
inductive Step : RemarkableFs → RemarkableFs → Prop
  | fuseOpen (fs : RemarkableFs) (ino : Nat) : Step fs (fs.fuse_open ino).2
  | fuseRelease (fs : RemarkableFs) (ino : Nat) : Step fs (fs.fuse_release ino).2
  | readdir (env : Remote) (fs : RemarkableFs) (ino ioffset : Nat) :
      Step fs (fs.node_readdir env ino ioffset).2

/-- States reachable in a mount session: init_root on a fresh engine,
then any sequence of dispatched operations (getattr, lookup and read do
not mutate the engine state). -/
inductive Reachable : RemarkableFs → Prop
  | init (document_root : String) (now : Nat) :
      Reachable ((RemarkableFs.new document_root).init_root now)
  | step {fs fs2 : RemarkableFs} : Reachable fs → Step fs fs2 → Reachable fs2

/-! ### Helper lemmas -/


lemma get_node_eq_some {fs : RemarkableFs} {ino : Nat} {n : Node} :
    fs.get_node ino = some n ↔ fs.nodes[ino]? = some n ∧ 0 < ino := by
  unfold RemarkableFs.get_node
  constructor
  · intro h
    split at h
    next hc =>
      cases h
      refine ⟨?_, by simpa [Node.INVALID_NODE_INO] using hc.2⟩
      simp [List.get_eq_getElem, List.getElem?_eq_getElem hc.1]
    next hc => cases h
  · rintro ⟨h1, h2⟩
    obtain ⟨hlt, hval⟩ := List.getElem?_eq_some.mp h1
    rw [dif_pos ⟨hlt, by simpa [Node.INVALID_NODE_INO] using h2⟩]
    simp [List.get_eq_getElem, hval]

lemma get_node_eq_none {fs : RemarkableFs} {ino : Nat} :
    fs.get_node ino = none ↔ ino = 0 ∨ fs.nodes.length ≤ ino := by
  unfold RemarkableFs.get_node
  split
  next hc =>
    simp only [Node.INVALID_NODE_INO] at hc
    constructor
    · intro h; cases h
    · intro h; omega
  next hc =>
    simp only [Node.INVALID_NODE_INO, not_and_or, Nat.not_lt] at hc
    constructor
    · intro _; omega
    · intro _; rfl

lemma lookup_cons_eq (k : String) (v : Nat) (t : List (String × Nat)) (u : String) :
    ((k, v) :: t).lookup u = if u = k then some v else t.lookup u := by
  by_cases h : u = k
  · simp [List.lookup, h]
  · have hb : (u == k) = false := beq_eq_false_iff_ne.mpr h
    simp [List.lookup, hb, h]

lemma lookup_none_forall {t : List (String × Nat)} {u : String}
    (h : t.lookup u = none) : ∀ p ∈ t, p.1 ≠ u := by
  induction t with
  | nil => intro p hp; cases hp
  | cons hd tl ih =>
    obtain ⟨k, v⟩ := hd
    rw [lookup_cons_eq] at h
    split at h
    · cases h
    next hne =>
      intro p hp
      rcases List.mem_cons.mp hp with hp1 | hp1
      · subst hp1
        intro hc
        exact hne (by simpa using hc.symm)
      · exact ih h p hp1

lemma lookup_some_mem {t : List (String × Nat)} {u : String} {v : Nat}
    (h : t.lookup u = some v) : (u, v) ∈ t := by
  induction t with
  | nil => cases h
  | cons hd tl ih =>
    obtain ⟨k, w⟩ := hd
    rw [lookup_cons_eq] at h
    split at h
    next heq => cases h; subst heq; exact List.mem_cons_self _ _
    next => exact List.mem_cons_of_mem _ (ih h)

lemma inv_set_node {fs : RemarkableFs} {ino : Nat} {n : Node}
    (hInv : Inv fs) (hino : n.ino = ino) : Inv (fs.set_node ino n) := by
  obtain ⟨hIdx, hKeys, hVals, hBound⟩ := hInv
  constructor
  · intro i m h
    simp only [RemarkableFs.set_node] at h
    by_cases hij : ino = i
    · subst hij
      rcases Nat.lt_or_ge ino fs.nodes.length with hlt | hge
      · rw [List.getElem?_set_eq_of_lt _ hlt] at h
        cases h; exact hino
      · rw [List.set_eq_of_length_le hge] at h
        exact hIdx ino m h
    · rw [List.getElem?_set_ne hij] at h
      exact hIdx i m h
  · refine ⟨hKeys, hVals, ?_⟩
    intro p hp
    simpa [RemarkableFs.set_node] using hBound p hp

lemma load_new_node_ino {env : Remote} {fs : RemarkableFs}
    {nodeid p : Nat} {f : SshFileStat} {node : Node}
    (h : fs.load_new_node env nodeid p f = Except.ok node) : node.ino = nodeid := by
  unfold RemarkableFs.load_new_node at h
  split at h
  next => cases h
  next s h1 =>
    split at h
    next => cases h
    next m h2 =>
      split at h
      · split at h
        next => cases h
        next cstr h3 =>
          split at h
          next => cases h
          next c h4 =>
            split at h
            next target h5 =>
              split at h
              next => cases h
              next fstat h6 =>
                cases h
                simp [Node.update_target_fstat, Node.update_content, Node.from_metadata]
            next h5 =>
              cases h
              simp [Node.update_content, Node.from_metadata]
      · cases h
        simp [Node.from_metadata]

lemma add_or_update_spec {env : Remote} {fs : RemarkableFs} {p : Nat}
    {f : SshFileStat} {fs2 : RemarkableFs} {node : Node} (hInv : Inv fs)
    (h : fs.add_or_update_node_from_metadata env p f = Except.ok (fs2, node)) :
    Inv fs2 ∧ lookupPreserved fs fs2 ∧ fs.nodes.length ≤ fs2.nodes.length := by
  unfold RemarkableFs.add_or_update_node_from_metadata at h
  split at h
  next node_id hl =>
    split at h
    next => cases h
    next n0 hg =>
      split at h
      · split at h
        next => cases h
        next strmetadata hread =>
          split at h
          next => cases h
          next m hdec =>
            cases h
            have hn0 : n0.ino = node_id :=
              hInv.1 node_id n0 (get_node_eq_some.mp hg).1
            refine ⟨inv_set_node hInv ?_, ?_, ?_⟩
            · simpa [Node.update_metadata] using hn0
            · intro u i hu; simpa [RemarkableFs.set_node] using hu
            · simp [RemarkableFs.set_node]
      · cases h
        exact ⟨hInv, fun u i hu => hu, le_refl _⟩
  next hl =>
    split at h
    next => cases h
    next nd hload =>
      cases h
      obtain ⟨hIdx, hKeys, hVals, hBound⟩ := hInv
      have hino := load_new_node_ino hload
      refine ⟨⟨?_, ?_, ?_, ?_⟩, ?_, ?_⟩
      · intro i m hm
        simp only [List.getElem?_append] at hm
        split at hm
        · exact hIdx i m hm
        next hge =>
          rcases Nat.lt_or_ge i (fs.nodes.length + 1) with hlt | hge2
          · have hi : i = fs.nodes.length := by omega
            subst hi
            simp at hm
            cases hm
            exact hino
          · rw [List.getElem?_eq_none (by simp; omega)] at hm
            cases hm
      · simp only [List.map_cons, List.nodup_cons]
        refine ⟨?_, hKeys⟩
        intro hc
        obtain ⟨q, hq, hq2⟩ := List.mem_map.mp hc
        exact lookup_none_forall hl q hq hq2
      · simp only [List.map_cons, List.nodup_cons]
        refine ⟨?_, hVals⟩
        intro hc
        obtain ⟨q, hq, hq2⟩ := List.mem_map.mp hc
        have := hBound q hq
        omega
      · intro q hq
        simp only [List.length_append, List.length_cons, List.length_nil]
        rcases List.mem_cons.mp hq with hq1 | hq1
        · rw [hq1]; simp
        · have := hBound q hq1
          omega
      · intro u i hu
        rw [lookup_cons_eq]
        split
        next heq => rw [heq] at hu; rw [hl] at hu; cases hu
        next => exact hu
      · simp

lemma readdirFold_spec (env : Remote) (p : Nat) (l : List (Nat × SshFileStat))
    (fs : RemarkableFs) (hInv : Inv fs) :
    Inv (readdirFold env p l fs).2 ∧ lookupPreserved fs (readdirFold env p l fs).2 ∧
      fs.nodes.length ≤ (readdirFold env p l fs).2.nodes.length := by
  induction l generalizing fs with
  | nil => exact ⟨hInv, fun u i h => h, le_refl _⟩
  | cons hd tl ih =>
    obtain ⟨o, f⟩ := hd
    unfold readdirFold
    cases hadd : fs.add_or_update_node_from_metadata env p f with
    | error e => exact ih fs hInv
    | ok pr =>
      obtain ⟨fs1, node⟩ := pr
      obtain ⟨h1, h2, h3⟩ := add_or_update_spec hInv hadd
      obtain ⟨h4, h5, h6⟩ := ih fs1 h1
      exact ⟨h4, fun u i hu => h5 u i (h2 u i hu), le_trans h3 h6⟩

lemma node_readdir_update_spec (node_ino : Nat) (r : List FuserChild × RemarkableFs)
    (hInv : Inv r.2) :
    Inv (RemarkableFs.node_readdir_update node_ino r) ∧
      (RemarkableFs.node_readdir_update node_ino r).uidMap = r.2.uidMap ∧
      (RemarkableFs.node_readdir_update node_ino r).nodes.length = r.2.nodes.length := by
  unfold RemarkableFs.node_readdir_update
  cases hg : r.2.get_node node_ino with
  | none => exact ⟨hInv, rfl, rfl⟩
  | some rootnode =>
    have hroot : rootnode.ino = node_ino :=
      hInv.1 node_ino rootnode (get_node_eq_some.mp hg).1
    refine ⟨inv_set_node hInv (by simpa [Node.set_children] using hroot), rfl, ?_⟩
    simp [RemarkableFs.set_node]

lemma node_readdir_spec (env : Remote) (fs : RemarkableFs) (ino o : Nat)
    (hInv : Inv fs) :
    Inv (fs.node_readdir env ino o).2 ∧
      lookupPreserved fs (fs.node_readdir env ino o).2 ∧
      fs.nodes.length ≤ (fs.node_readdir env ino o).2.nodes.length := by
  have hsync : ∀ fs1, fs.node_readdir_sync env ino o = Except.ok fs1 →
      Inv fs1 ∧ lookupPreserved fs fs1 ∧ fs.nodes.length ≤ fs1.nodes.length := by
    intro fs1 hs
    unfold RemarkableFs.node_readdir_sync at hs
    split at hs
    · cases hg : fs.get_metadata_files_by_parent env ino with
      | error e => rw [hg] at hs; cases hs
      | ok read_children =>
        rw [hg] at hs
        cases hs
        obtain ⟨h1, h2, h3⟩ := readdirFold_spec env ino
          (Node.root_children ino ++ read_children).enum fs hInv
        obtain ⟨h4, h5, h6⟩ := node_readdir_update_spec ino
          (readdirFold env ino (Node.root_children ino ++ read_children).enum fs) h1
        refine ⟨h4, ?_, ?_⟩
        · intro u i hu
          rw [h5]
          exact h2 u i hu
        · omega
    · cases hs
      exact ⟨hInv, fun u i h => h, le_refl _⟩
  unfold RemarkableFs.node_readdir
  cases hs : fs.node_readdir_sync env ino o with
  | error e => exact ⟨hInv, fun u i h => h, le_refl _⟩
  | ok fs1 => exact hsync fs1 hs

lemma fuse_open_spec (fs : RemarkableFs) (ino : Nat) (hInv : Inv fs) :
    Inv (fs.fuse_open ino).2 ∧ (fs.fuse_open ino).2.uidMap = fs.uidMap ∧
      (fs.fuse_open ino).2.nodes.length = fs.nodes.length := by
  unfold RemarkableFs.fuse_open
  split
  next node hg =>
    split
    next node1 v ho =>
      have hni : node.ino = ino := hInv.1 ino node (get_node_eq_some.mp hg).1
      have hn1 : node1.ino = ino := by
        unfold Node.openHandle at ho
        split at ho
        · cases ho; simpa using hni
        · cases ho
      exact ⟨inv_set_node hInv hn1, rfl, by simp [RemarkableFs.set_node]⟩
    all_goals exact ⟨hInv, rfl, rfl⟩
  next hg => exact ⟨hInv, rfl, rfl⟩

lemma fuse_release_spec (fs : RemarkableFs) (ino : Nat) (hInv : Inv fs) :
    Inv (fs.fuse_release ino).2 ∧ (fs.fuse_release ino).2.uidMap = fs.uidMap ∧
      (fs.fuse_release ino).2.nodes.length = fs.nodes.length := by
  unfold RemarkableFs.fuse_release
  split
  next node hg =>
    split
    next node1 v ho =>
      have hni : node.ino = ino := hInv.1 ino node (get_node_eq_some.mp hg).1
      have hn1 : node1.ino = ino := by
        unfold Node.closeHandle at ho
        split at ho
        · cases ho; simpa using hni
        · cases ho
      exact ⟨inv_set_node hInv hn1, rfl, by simp [RemarkableFs.set_node]⟩
    all_goals exact ⟨hInv, rfl, rfl⟩
  next hg => exact ⟨hInv, rfl, rfl⟩

lemma step_spec {fs fs2 : RemarkableFs} (hInv : Inv fs) (h : Step fs fs2) :
    Inv fs2 ∧ lookupPreserved fs fs2 ∧ fs.nodes.length ≤ fs2.nodes.length := by
  cases h with
  | fuseOpen fs ino =>
    obtain ⟨h1, h2, h3⟩ := fuse_open_spec fs ino hInv
    refine ⟨h1, ?_, le_of_eq h3.symm⟩
    intro u i hu
    rw [h2]
    exact hu
  | fuseRelease fs ino =>
    obtain ⟨h1, h2, h3⟩ := fuse_release_spec fs ino hInv
    refine ⟨h1, ?_, le_of_eq h3.symm⟩
    intro u i hu
    rw [h2]
    exact hu
  | readdir env fs ino ioffset => exact node_readdir_spec env fs ino ioffset hInv

lemma inv_init (root : String) (now : Nat) :
    Inv ((RemarkableFs.new root).init_root now) := by
  constructor
  · intro i n h
    have hn : ((RemarkableFs.new root).init_root now).nodes =
        [Node.new Node.INVALID_NODE_INO SshFileStat.defaultStat, Node.new_root now,
          (Node.new_trash now).set_parent Node.ROOT_NODE_INO] := rfl
    rw [hn] at h
    match i with
    | 0 => rw [List.getElem?_cons_zero] at h; cases h; rfl
    | 1 =>
      rw [List.getElem?_cons_succ, List.getElem?_cons_zero] at h
      cases h; rfl
    | 2 =>
      rw [List.getElem?_cons_succ, List.getElem?_cons_succ,
        List.getElem?_cons_zero] at h
      cases h; rfl
    | (k + 3) =>
      rw [List.getElem?_cons_succ, List.getElem?_cons_succ,
        List.getElem?_cons_succ, List.getElem?_nil] at h
      cases h
  · have hmap : ((RemarkableFs.new root).init_root now).uidMap =
        [(Node.TRASH_NODE_UID, Node.TRASH_NODE_INO),
          (Node.ROOT_NODE_UID, Node.ROOT_NODE_INO)] := rfl
    refine ⟨?_, ?_, ?_⟩
    · rw [hmap]; decide
    · rw [hmap]; decide
    · intro p hp
      have hlen : ((RemarkableFs.new root).init_root now).nodes.length = 3 := rfl
      rw [hlen]
      rw [hmap] at hp
      rcases List.mem_cons.mp hp with h1 | h1
      · rw [h1]; decide
      · rcases List.mem_cons.mp h1 with h2 | h2
        · rw [h2]; decide
        · cases h2

lemma reachable_inv {fs : RemarkableFs} (h : Reachable fs) : Inv fs := by
  induction h with
  | init root now => exact inv_init root now
  | step hr hs ih => exact (step_spec ih hs).1

lemma add_or_update_known {env : Remote} {fs : RemarkableFs} {p : Nat}
    {f : SshFileStat} {node_id : Nat} {n : Node}
    (hl : fs.uidMap.lookup f.unique_id = some node_id)
    (hg : fs.get_node node_id = some n) :
    fs.add_or_update_node_from_metadata env p f =
      (if n.needs_updating f then
        match env.read_as_string f.path with
        | Except.error e => Except.error e
        | Except.ok strmetadata =>
          match env.decode_metadata strmetadata with
          | Except.error e => Except.error e
          | Except.ok m =>
            Except.ok (fs.set_node node_id (n.update_metadata f p m),
              n.update_metadata f p m)
      else Except.ok (fs, n)) := by
  unfold RemarkableFs.add_or_update_node_from_metadata
  split
  next nid hl2 =>
    rw [hl] at hl2
    cases hl2
    split
    next hg2 => rw [hg] at hg2; cases hg2
    next n0 hg2 =>
      rw [hg] at hg2
      cases hg2
      rfl
  next hl2 =>
    rw [hl] at hl2
    cases hl2

lemma add_or_update_fresh {env : Remote} {fs : RemarkableFs} {p : Nat}
    {f : SshFileStat} (hl : fs.uidMap.lookup f.unique_id = none) :
    fs.add_or_update_node_from_metadata env p f =
      (match fs.load_new_node env fs.nodes.length p f with
       | Except.error e => Except.error e
       | Except.ok node =>
         Except.ok (RemarkableFs.mk fs.document_root (fs.nodes ++ [node])
           ((f.unique_id, fs.nodes.length) :: fs.uidMap), node)) := by
  unfold RemarkableFs.add_or_update_node_from_metadata
  split
  next nid hl2 => rw [hl] at hl2; cases hl2
  next hl2 => rfl

lemma node_readdir_entries_of_get {fs1 : RemarkableFs} {ino o : Nat} {n : Node}
    (hg : fs1.get_node ino = some n) :
    fs1.node_readdir_entries ino o =
      (match n.get_children o with
       | some l => ReadDirOutcome.entries l
       | none => ReadDirOutcome.sliceOutOfBounds) := by
  unfold RemarkableFs.node_readdir_entries
  split
  next root hg2 => rw [hg] at hg2; cases hg2; rfl
  next hg2 => rw [hg] at hg2; cases hg2

/-! ### C3: the refresh policy -/

/-- C3: for every node, a full metadata refetch is triggered exactly when
the node has no cached metadata yet or the newly observed remote stat has
a strictly greater modify-time than the cached stat; the root and trash
nodes never trigger a refetch.  The third conjunct grounds trigger in
add_or_update_node_from_metadata itself: for a known uid, with a
transport whose reads fail with a sentinel error, the call re-reads
metadata (and hence surfaces the sentinel) exactly when needs_updating
holds, and returns the unchanged state otherwise. -/
theorem C3_refresh_policy (n : Node) (f : SshFileStat) :
    ((n.is_root = true ∨ n.is_trash = true) → n.needs_updating f = false) ∧
    (n.is_root = false → n.is_trash = false →
      (n.needs_updating f = true ↔
        (n.metadata = none ∨ n.filestat.mtime.getD 0 < f.mtime.getD 0))) ∧
    (∀ (fs : RemarkableFs) (env : Remote) (p node_id : Nat),
      fs.uidMap.lookup f.unique_id = some node_id →
      fs.get_node node_id = some n →
      (∀ q, env.read_as_string q = Except.error RemarkableError.Ssh2Error) →
      ((n.needs_updating f = false →
        fs.add_or_update_node_from_metadata env p f = Except.ok (fs, n)) ∧
       (n.needs_updating f = true →
        fs.add_or_update_node_from_metadata env p f =
          Except.error RemarkableError.Ssh2Error))) := by
  refine ⟨?_, ?_, ?_⟩
  · intro h
    rcases h with h | h <;> simp [Node.needs_updating, h]
  · intro hr ht
    simp [Node.needs_updating, hr, ht, SshFileStat.is_more_recent_than,
      Option.isNone_iff_eq_none]
  · intro fs env p node_id hl hg henv
    constructor
    · intro hfalse
      rw [add_or_update_known hl hg, hfalse]
      rfl
    · intro htrue
      rw [add_or_update_known hl hg, htrue, if_pos rfl, henv f.path]

/-- Witness for C3 at concrete inputs: the trash node of the initialized
engine never triggers a refetch even for a much newer stat, and
add_or_update leaves the engine untouched on it; a plain node with no
cached metadata does trigger one. -/
theorem C3_refresh_policy_witness :
    ((Node.new_trash 0).set_parent 1).needs_updating statDoc = false ∧
    fs0.add_or_update_node_from_metadata envNone 1
      { statDoc with path := ".Trash" } =
      Except.ok (fs0, (Node.new_trash 0).set_parent 1) ∧
    (Node.new 3 SshFileStat.defaultStat).needs_updating statDoc = true := by
  refine ⟨?_, ?_, ?_⟩
  · exact (C3_refresh_policy ((Node.new_trash 0).set_parent 1) statDoc).1
      (Or.inr (by decide))
  · exact ((C3_refresh_policy ((Node.new_trash 0).set_parent 1)
      { statDoc with path := ".Trash" }).2.2 fs0 envNone 1 2 (by decide) (by decide)
      (fun q => rfl)).1 (by decide)
  · exact ((C3_refresh_policy (Node.new 3 SshFileStat.defaultStat) statDoc).2.1
      (by decide) (by decide)).mpr (Or.inl (by decide))

/-! ### C6: the read guard -/

/-- C6 counterexample: a zero-size read at the negative offset -1 is NOT
rejected with EINVAL; the guard condition of fs.rs line 362 sends it into
the read path (here it surfaces EBADFD from the invalid inode 0), so the
claim that every zero-size and every negative-offset read gets EINVAL is
false on the code. -/
theorem C6_counterexample :
    fs0.fuse_read envNone 0 (-1) 0 = FuseReply.errorCode EBADFD ∧
    FuseReply.errorCode EBADFD ≠ FuseReply.errorCode EINVAL := by
  exact ⟨by decide, by decide⟩

/-- C6 amended: a read request with zero size AND non-negative offset is
rejected with EINVAL before any remote transport call (the reply does not
depend on the transport oracle at all); requests with positive size or a
negative offset take the read path instead. -/
theorem C6_zero_size_read_rejected (env : Remote) (fs : RemarkableFs) (ino : Nat)
    (offset : Int) (hofs : 0 ≤ offset) :
    fs.fuse_read env ino offset 0 = FuseReply.errorCode EINVAL := by
  unfold RemarkableFs.fuse_read
  rw [if_neg]
  intro h
  rcases h with h | h
  · exact absurd h (by omega)
  · omega

/-- Witness for C6: a zero-size read at offset 3 on the document inode of
the concrete engine state is rejected with EINVAL. -/
theorem C6_zero_size_read_rejected_witness :
    fsDoc.fuse_read envBytes 3 3 0 = FuseReply.errorCode EINVAL :=
  C6_zero_size_read_rejected envBytes fsDoc 3 3 (by decide)

/-! ### C7: handle accounting -/

/-- C7: open fails with an EACCES io error exactly at the maximal u64
handle count and otherwise increments the counter and returns the new
count; close fails with an EINVAL io error exactly at count zero and
otherwise decrements and returns the new count; successive opens return
strictly increasing values; open, close, close fails on the second
close. -/
theorem C7_handle_accounting (n : Node) :
    (n.handles = U64MAX →
      n.openHandle = Except.error (RemarkableError.NodeIoError EACCES)) ∧
    (n.handles < U64MAX →
      n.openHandle = Except.ok ({ n with handles := n.handles + 1 }, n.handles + 1)) ∧
    (n.handles = 0 →
      n.closeHandle = Except.error (RemarkableError.NodeIoError EINVAL)) ∧
    (0 < n.handles →
      n.closeHandle = Except.ok ({ n with handles := n.handles - 1 }, n.handles - 1)) ∧
    (∀ (n1 : Node) (v : Nat) (n2 : Node) (v2 : Nat),
      n.openHandle = Except.ok (n1, v) → n1.openHandle = Except.ok (n2, v2) →
      v < v2) ∧
    (n.handles = 0 → ∃ n1 n2 : Node, n.openHandle = Except.ok (n1, 1) ∧
      n1.closeHandle = Except.ok (n2, 0) ∧
      n2.closeHandle = Except.error (RemarkableError.NodeIoError EINVAL)) := by
  refine ⟨?_, ?_, ?_, ?_, ?_, ?_⟩
  · intro h
    unfold Node.openHandle
    rw [if_neg (by omega)]
  · intro h
    unfold Node.openHandle
    rw [if_pos h]
  · intro h
    unfold Node.closeHandle
    rw [if_neg (by omega)]
  · intro h
    unfold Node.closeHandle
    rw [if_pos h]
  · intro n1 v n2 v2 h1 h2
    unfold Node.openHandle at h1 h2
    split at h1
    · cases h1
      split at h2
      · cases h2
        simp only []
        omega
      · cases h2
    · cases h1
  · intro h
    refine ⟨{ n with handles := 1 }, { n with handles := 0 }, ?_, ?_, ?_⟩
    · unfold Node.openHandle
      rw [if_pos (by rw [h]; simp [U64MAX])]
      rw [h]
    · unfold Node.closeHandle
      rw [if_pos (by simp)]
      simp
    · unfold Node.closeHandle
      rw [if_neg (by simp)]

/-- Witness for C7 at a concrete fresh node: the first open returns 1 and
the open, close, close scenario fails on the second close. -/
theorem C7_handle_accounting_witness :
    (Node.new 5 SshFileStat.defaultStat).openHandle =
      Except.ok ({ Node.new 5 SshFileStat.defaultStat with handles := 1 }, 1) ∧
    (∃ n1 n2 : Node, (Node.new 5 SshFileStat.defaultStat).openHandle =
        Except.ok (n1, 1) ∧
      n1.closeHandle = Except.ok (n2, 0) ∧
      n2.closeHandle = Except.error (RemarkableError.NodeIoError EINVAL)) := by
  constructor
  · exact (C7_handle_accounting (Node.new 5 SshFileStat.defaultStat)).2.1 (by decide)
  · exact (C7_handle_accounting (Node.new 5 SshFileStat.defaultStat)).2.2.2.2.2 rfl

/-! ### C8: node-table lookup -/

/-- C8: the node-table lookup fails exactly for inode 0 and for any inode
at or beyond the current table length (the adapter surfaces this as
NodeNotFound), and for every valid inode it returns the arena entry at
that index, whose stored inode number is the index it was allocated
with. -/
theorem C8_get_node_spec (fs : RemarkableFs) (hr : Reachable fs) (ino : Nat) :
    (fs.get_node ino = none ↔ ino = 0 ∨ fs.nodes.length ≤ ino) ∧
    (∀ n : Node, fs.get_node ino = some n →
      fs.nodes[ino]? = some n ∧ n.ino = ino) := by
  refine ⟨get_node_eq_none, ?_⟩
  intro n h
  have h2 := get_node_eq_some.mp h
  exact ⟨h2.1, (reachable_inv hr).1 ino n h2.1⟩

/-- Witness for C8 on the freshly initialized engine: inode 5 is out of
range and fails, and any successful lookup at inode 1 returns the arena
entry with stored inode 1. -/
theorem C8_get_node_spec_witness :
    (fs0.get_node 5 = none ↔ 5 = 0 ∨ fs0.nodes.length ≤ 5) ∧
    (∀ n : Node, fs0.get_node 5 = some n →
      fs0.nodes[5]? = some n ∧ n.ino = 5) :=
  C8_get_node_spec fs0 (Reachable.init XOCHITL 0) 5

/-! ### C10: invalid inodes at the adapter -/

/-- C10: for every inode the node table rejects, open and release reply
EBADFD (which differs from ENOENT) and leave the engine state, hence
every handle counter, unchanged, while getattr on the same inode replies
ENOENT. -/
theorem C10_invalid_ino_replies (fs : RemarkableFs) (ino : Nat)
    (h : ino = 0 ∨ fs.nodes.length ≤ ino) :
    fs.fuse_open ino = (FuseReply.errorCode EBADFD, fs) ∧
    fs.fuse_release ino = (FuseReply.errorCode EBADFD, fs) ∧
    fs.fuse_getattr ino = FuseReply.errorCode ENOENT ∧
    EBADFD ≠ ENOENT := by
  have hg : fs.get_node ino = none := get_node_eq_none.mpr h
  refine ⟨?_, ?_, ?_, by decide⟩
  · unfold RemarkableFs.fuse_open
    rw [hg]
  · unfold RemarkableFs.fuse_release
    rw [hg]
  · unfold RemarkableFs.fuse_getattr
    rw [hg]

/-- Witness for C10: inode 7 on the initialized engine (table length 3)
is rejected with EBADFD by open and release, leaving the state unchanged,
and with ENOENT by getattr. -/
theorem C10_invalid_ino_replies_witness :
    fs0.fuse_open 7 = (FuseReply.errorCode EBADFD, fs0) ∧
    fs0.fuse_release 7 = (FuseReply.errorCode EBADFD, fs0) ∧
    fs0.fuse_getattr 7 = FuseReply.errorCode ENOENT ∧
    EBADFD ≠ ENOENT :=
  C10_invalid_ino_replies fs0 7 (Or.inr (by decide))

/-! ### C4: directory reads at non-zero offsets -/

/-- C4 counterexample: the freshly initialized root has an empty cached
children list (L = 0); a directory read at offset 1 > L does not yield a
not-found error: it hits the out-of-range slice of Node::get_children (a
panic in the Rust code), a different outcome than the NodeNotFound error
the claim asserts. -/
theorem C4_counterexample :
    (fs0.node_readdir envNone 1 1).1 = ReadDirOutcome.sliceOutOfBounds ∧
    ReadDirOutcome.sliceOutOfBounds ≠
      ReadDirOutcome.fsError (RemarkableError.NodeNotFound 1) := by
  exact ⟨by decide, by decide⟩

/-- C4 amended: a directory read at any non-zero offset o never re-syncs
with the remote store: the reply is independent of the transport oracle
and the engine state is returned unchanged.  For a resolvable directory
with cached children list of length L, an offset o with o ≤ L is answered
with the cached entries from position o (empty at o = L, the no-more-
entries reply), while o > L runs into the out-of-range slice of
Node::get_children, a panic rather than a not-found error. -/
theorem C4_nonzero_offset_no_resync (env env2 : Remote) (fs : RemarkableFs)
    (ino o : Nat) (ho : o ≠ 0) :
    (fs.node_readdir env ino o).2 = fs ∧
    fs.node_readdir env ino o = fs.node_readdir env2 ino o ∧
    (∀ n : Node, fs.get_node ino = some n →
      (o ≤ n.children.length →
        (fs.node_readdir env ino o).1 =
          ReadDirOutcome.entries (n.children.drop o)) ∧
      (n.children.length < o →
        (fs.node_readdir env ino o).1 = ReadDirOutcome.sliceOutOfBounds)) := by
  have hsync : ∀ e : Remote, fs.node_readdir_sync e ino o = Except.ok fs := by
    intro e
    unfold RemarkableFs.node_readdir_sync
    rw [if_neg ho]
  have hrd : ∀ e : Remote, fs.node_readdir e ino o =
      (fs.node_readdir_entries ino o, fs) := by
    intro e
    unfold RemarkableFs.node_readdir
    rw [hsync e]
  refine ⟨by rw [hrd env], by rw [hrd env, hrd env2], ?_⟩
  intro n hg
  constructor
  · intro hle
    rw [hrd env]
    rw [show (RemarkableFs.node_readdir_entries fs ino o, fs).1 =
      RemarkableFs.node_readdir_entries fs ino o from rfl]
    rw [node_readdir_entries_of_get hg]
    unfold Node.get_children
    rw [if_pos hle]
  · intro hgt
    rw [hrd env]
    rw [show (RemarkableFs.node_readdir_entries fs ino o, fs).1 =
      RemarkableFs.node_readdir_entries fs ino o from rfl]
    rw [node_readdir_entries_of_get hg]
    unfold Node.get_children
    rw [if_neg (by omega)]

/-- Witness for C4: offset 1 on the initialized root (cached length 0)
leaves the state unchanged, ignores the transport, and runs into the
out-of-range slice. -/
theorem C4_nonzero_offset_no_resync_witness :
    (fs0.node_readdir envNone 1 1).2 = fs0 ∧
    fs0.node_readdir envNone 1 1 = fs0.node_readdir envBytes 1 1 ∧
    (∀ n : Node, fs0.get_node 1 = some n →
      (1 ≤ n.children.length →
        (fs0.node_readdir envNone 1 1).1 =
          ReadDirOutcome.entries (n.children.drop 1)) ∧
      (n.children.length < 1 →
        (fs0.node_readdir envNone 1 1).1 = ReadDirOutcome.sliceOutOfBounds)) :=
  C4_nonzero_offset_no_resync envNone envBytes fs0 1 1 (by decide)

/-! ### C2: the root listing after initialization -/

/-- C2 counterexample: with the remote store reporting no children for
root, the directory listing of the initialized root at offset 0 yields NO
entries at all, not the single trash entry the claim asserts:
Node::root_children returns the empty vector (its trash-child block is
commented out in the source) and init_root never attaches the trash node
to the root children list. -/
theorem C2_counterexample :
    (fs0.node_readdir envNone 1 0).1 = ReadDirOutcome.entries [] ∧
    (fs0.node_readdir envNone 1 0).1 ≠
      ReadDirOutcome.entries
        [FuserChild.new 2 0 FileType.Directory ".Trash"] := by
  exact ⟨by decide, by decide⟩

/-- C2 amended: after initialization, if the remote store reports no
children for root, a listing of root (inode 1) at offset 0 yields no
entries.  The trash directory still exists at inode 2 and a name lookup
of .Trash under root resolves to it, but no synthetic trash entry appears
in any listing. -/
theorem C2_root_listing_empty (root : String) (now : Nat) (env : Remote)
    (hcmd : ∀ c, env.execute_cmd c = Except.ok "") :
    (((RemarkableFs.new root).init_root now).node_readdir env 1 0).1 =
      ReadDirOutcome.entries [] ∧
    ((RemarkableFs.new root).init_root now).lookup_node 1
      Node.TRASH_NODE_PATH =
      Except.ok (some ((Node.new_trash now).set_parent Node.ROOT_NODE_INO)) := by
  constructor
  · have hmeta : ((RemarkableFs.new root).init_root now).get_metadata_files_by_parent
        env 1 = Except.ok [] := by
      unfold RemarkableFs.get_metadata_files_by_parent
      split
      next nid h0 =>
        have h1 : ((RemarkableFs.new root).init_root now).get_node_unique_id 1 =
            some Node.ROOT_NODE_UID := rfl
        rw [h1] at h0
        cases h0
        rw [hcmd]
        rfl
      next h0 =>
        have h1 : ((RemarkableFs.new root).init_root now).get_node_unique_id 1 =
            some Node.ROOT_NODE_UID := rfl
        rw [h1] at h0
        cases h0
    unfold RemarkableFs.node_readdir RemarkableFs.node_readdir_sync
    rw [if_pos rfl, hmeta]
    rfl
  · rfl

/-- Witness for C2 at the concrete initialized engine and the
empty-remote oracle. -/
theorem C2_root_listing_empty_witness :
    ((fs0.node_readdir envNone 1 0).1 = ReadDirOutcome.entries []) ∧
    fs0.lookup_node 1 Node.TRASH_NODE_PATH =
      Except.ok (some ((Node.new_trash 0).set_parent Node.ROOT_NODE_INO)) :=
  C2_root_listing_empty XOCHITL 0 envNone (fun _ => rfl)

/-! ### C1: the read size contract -/

/-- C1: evaluation of the read path on a pdf document of declared size 10.
Reads strictly inside the file honor the min(n, S - o) contract and a
read exactly at the end returns zero bytes, but a read at offset 11 > 10
does not return zero bytes: the u64 subtraction S - o wraps to 2 to the
64 minus 1 (a debug build panics here), so min with the requested size 5
requests and returns 5 bytes past the end of the file, contradicting the
claimed zero-byte result for every offset at or beyond S. -/
theorem C1_read_underflow :
    fsDoc.node_read_ofs_size envBytes 3 5 4 = Except.ok (List.replicate 4 7) ∧
    fsDoc.node_read_ofs_size envBytes 3 10 4 = Except.ok [] ∧
    docNode.get_size = 10 ∧
    u64_wrapping_sub docNode.get_size 11 = 2 ^ 64 - 1 ∧
    (∃ buf : List Nat, fsDoc.node_read_ofs_size envBytes 3 11 5 = Except.ok buf ∧
      buf.length = 5 ∧ buf.length ≠ 0) := by
  refine ⟨rfl, rfl, by decide, by decide, List.replicate 5 7, rfl, by decide, by decide⟩

/-! ### C9: inode allocation and the uid map -/

/-- C9: across every dispatched operation from a reachable engine state,
the uid map is append-only (existing bindings are never remapped), the
node table never shrinks, the map stays injective (two bindings with the
same inode carry the same uid), and an add-or-update call on a uid that
is not yet mapped allocates exactly the inode equal to the table length
at allocation time, appends the new node there, and records the
binding. -/
theorem C9_alloc_invariant (fs fs2 : RemarkableFs) (hr : Reachable fs)
    (hs : Step fs fs2) :
    (∀ (u : String) (i : Nat), fs.uidMap.lookup u = some i →
      fs2.uidMap.lookup u = some i) ∧
    fs.nodes.length ≤ fs2.nodes.length ∧
    (∀ p q : String × Nat, p ∈ fs2.uidMap → q ∈ fs2.uidMap →
      p.2 = q.2 → p.1 = q.1) ∧
    (∀ (env : Remote) (pino : Nat) (f : SshFileStat) (fs3 : RemarkableFs)
      (nd : Node),
      fs.uidMap.lookup f.unique_id = none →
      fs.add_or_update_node_from_metadata env pino f = Except.ok (fs3, nd) →
      nd.ino = fs.nodes.length ∧ fs3.nodes = fs.nodes ++ [nd] ∧
      fs3.uidMap.lookup f.unique_id = some fs.nodes.length ∧
      fs3.nodes.length = fs.nodes.length + 1) := by
  have hInv := reachable_inv hr
  obtain ⟨hInv2, hpres, hlen⟩ := step_spec hInv hs
  refine ⟨hpres, hlen, ?_, ?_⟩
  · intro p q hp hq hpq
    rw [List.inj_on_of_nodup_map hInv2.2.2.1 hp hq hpq]
  · intro env pino f fs3 nd hl hres
    rw [add_or_update_fresh hl] at hres
    split at hres
    next => cases hres
    next nd2 hload =>
      cases hres
      have hino := load_new_node_ino hload
      refine ⟨hino, rfl, ?_, by simp⟩
      rw [lookup_cons_eq, if_pos rfl]

/-- Witness for C9: the initialized engine stepping through an open of
the root inode keeps every uid binding and never shrinks the table. -/
theorem C9_alloc_invariant_witness :
    (∀ (u : String) (i : Nat), fs0.uidMap.lookup u = some i →
      (fs0.fuse_open 1).2.uidMap.lookup u = some i) ∧
    fs0.nodes.length ≤ (fs0.fuse_open 1).2.nodes.length :=
  ⟨(C9_alloc_invariant fs0 (fs0.fuse_open 1).2 (Reachable.init XOCHITL 0)
      (Step.fuseOpen fs0 1)).1,
    (C9_alloc_invariant fs0 (fs0.fuse_open 1).2 (Reachable.init XOCHITL 0)
      (Step.fuseOpen fs0 1)).2.1⟩

/-! ### C5: display-name derivation -/

lemma splitAtLast_none {c : Char} {l : List Char} :
    splitAtLast c l = none ↔ c ∉ l := by
  induction l with
  | nil => simp [splitAtLast]
  | cons x xs ih =>
    rw [splitAtLast, List.mem_cons]
    split
    next b a h =>
      have hmem : c ∈ xs := by
        by_contra hn
        rw [ih.mpr hn] at h
        cases h
      constructor
      · intro hc; cases hc
      · intro hc; exact absurd (Or.inr hmem) hc
    next h =>
      have hnm : c ∉ xs := ih.mp h
      by_cases hx : x = c
      · rw [if_pos hx]
        constructor
        · intro hc; cases hc
        · intro hc; exact absurd (Or.inl hx.symm) hc
      · rw [if_neg hx]
        constructor
        · intro _ hc
          rcases hc with hc | hc
          · exact hx hc.symm
          · exact hnm hc
        · intro _; rfl

lemma splitAtLast_some {c : Char} {l b a : List Char}
    (h : splitAtLast c l = some (b, a)) : l = b ++ c :: a ∧ c ∉ a := by
  induction l generalizing b a with
  | nil => cases h
  | cons x xs ih =>
    rw [splitAtLast] at h
    split at h
    next b2 a2 h2 =>
      cases h
      obtain ⟨hl, hna⟩ := ih h2
      constructor
      · rw [List.cons_append, ← hl]
      · exact hna
    next h2 =>
      split at h
      next hx =>
        cases h
        subst hx
        exact ⟨rfl, splitAtLast_none.mp h2⟩
      next => cases h

lemma rsplit_cases (f : List Char) :
    rsplitFileAtDot f = (f, none) ∨
    ∃ b e : List Char, rsplitFileAtDot f = (b, some e) ∧
      f = b ++ '.' :: e ∧ b ≠ [] := by
  unfold rsplitFileAtDot
  split
  next hs => exact Or.inl rfl
  next b a hs =>
    by_cases hb : b = []
    · rw [if_pos hb]
      exact Or.inl rfl
    · rw [if_neg hb]
      exact Or.inr ⟨b, a, rfl, (splitAtLast_some hs).1, hb⟩

lemma rsplit_none_fst {f : List Char} (h : (rsplitFileAtDot f).2 = none) :
    (rsplitFileAtDot f).1 = f := by
  rcases rsplit_cases f with hc | ⟨b, e, hc, hd, hb⟩
  · rw [hc]
  · rw [hc] at h
    cases h

lemma rsplit_some {f b e : List Char} (h : rsplitFileAtDot f = (b, some e)) :
    f = b ++ '.' :: e ∧ b ≠ [] := by
  rcases rsplit_cases f with hc | ⟨b2, e2, hc, hd, hb⟩
  · rw [hc] at h
    cases h
  · rw [hc] at h
    cases h
    exact ⟨hd, hb⟩

lemma fileNameL_eq {v : List Char} (hs : '/' ∉ v) (h0 : v ≠ [])
    (h1 : v ≠ ['.']) (h2 : v ≠ ['.', '.']) : fileNameL v = some v := by
  unfold fileNameL
  split
  next pr hsp =>
    rw [splitAtLast_none.mpr hs] at hsp
    cases hsp
  next hsp =>
    rw [if_neg]
    intro hc
    rcases hc with hc | hc | hc
    · exact h0 hc
    · exact h1 hc
    · exact h2 hc

lemma setExtBase_eq (v : String) :
    setExtBase v v.toList = (rsplitFileAtDot v.toList).1 := by
  unfold setExtBase
  split
  next e he =>
    have hpair : rsplitFileAtDot v.toList = ((rsplitFileAtDot v.toList).1, some e) := by
      rw [← he]
    obtain ⟨hdecomp, hbne⟩ := rsplit_some hpair
    set b := (rsplitFileAtDot v.toList).1 with hb
    rw [hdecomp]
    have hlen : (b ++ '.' :: e).length - (e.length + 1) = b.length := by
      simp
    rw [hlen]
    exact List.take_left _ _
  next he => exact (rsplit_none_fst he).symm

lemma setExtension_eq {v : String} {ext : String}
    (hs : '/' ∉ v.toList) (h0 : v.toList ≠ []) (h1 : v.toList ≠ ['.'])
    (h2 : v.toList ≠ ['.', '.']) (hext : ext.toList ≠ []) :
    setExtension v ext =
      List.asString ((rsplitFileAtDot v.toList).1 ++ '.' :: ext.toList) := by
  unfold setExtension
  split
  next hf =>
    rw [fileNameL_eq hs h0 h1 h2] at hf
    cases hf
  next f hf =>
    rw [fileNameL_eq hs h0 h1 h2] at hf
    cases hf
    rw [if_neg hext, setExtBase_eq]

lemma get_basename_of_doc {n : Node} {m : RkMetadata}
    (h1 : n.ino ≠ Node.ROOT_NODE_INO) (h2 : n.ino ≠ Node.TRASH_NODE_INO)
    (hm : n.metadata = some m) : n.get_basename = some m.visible_name := by
  unfold Node.get_basename
  rw [if_neg h1, if_neg h2, hm]
  rfl

lemma get_extension_pdf {n : Node} {c : RkContents}
    (hc : n.content = some (RkContentChoice.HasSome c))
    (hft : c.file_type = RkFileType.PDF) : n.get_extension = some "pdf" := by
  unfold Node.get_extension
  split
  next c2 hc2 =>
    rw [hc] at hc2
    cases hc2
    rw [hft]
  next hc2 => exact absurd hc (by intro hx; exact hc2 c hx)

lemma get_extension_epub {n : Node} {c : RkContents}
    (hc : n.content = some (RkContentChoice.HasSome c))
    (hft : c.file_type = RkFileType.EPUB) : n.get_extension = some "epub" := by
  unfold Node.get_extension
  split
  next c2 hc2 =>
    rw [hc] at hc2
    cases hc2
    rw [hft]
  next hc2 => exact absurd hc (by intro hx; exact hc2 c hx)

lemma get_extension_notelines {n : Node} {c : RkContents}
    (hc : n.content = some (RkContentChoice.HasSome c))
    (hft : c.file_type = RkFileType.Notebook ∨ c.file_type = RkFileType.Lines) :
    n.get_extension = none := by
  unfold Node.get_extension
  split
  next c2 hc2 =>
    rw [hc] at hc2
    cases hc2
    rcases hft with h | h <;> rw [h]
  next hc2 => rfl

/-- A document node whose decoded visible name contains a dot: the pdf
document named v1.2 at inode 3. -/
def nodeV12 : Node :=
  { ino := 3, metadata := some { docMeta with visible_name := "v1.2" },
    content := some (RkContentChoice.HasSome ⟨RkFileType.PDF, 3⟩),
    filestat := statDoc, parent := 1, children := [], handles := 0 }

/-- C5 counterexample: the pdf document with visible name v1.2 is
displayed as v1.pdf, not v1.2.pdf: set_extension REPLACES the final
extension of the visible name instead of appending one, so the claim
that the displayed name is the visible name with .pdf appended is false
on the code. -/
theorem C5_counterexample :
    nodeV12.get_visible_name = "v1.pdf" ∧
    nodeV12.get_visible_name ≠ "v1.2" ++ ".pdf" := by
  exact ⟨by decide, by decide⟩

/-- C5 amended: for a document node (not root or trash) with decoded
metadata and a content record, and a visible name that is a plain file
name (no slash, not empty, not the dot or dot-dot names): when the
content resolves to pdf (resp. epub) the displayed name is the visible
name with its extension SET to pdf (resp. epub), that is, the stem of
the visible name followed by the new dotted extension, which replaces an
existing final extension and appends one exactly when the visible name
has no extension of its own; for notebook and lines kinds the displayed
name is the visible name unchanged. -/
theorem C5_display_name (n : Node) (m : RkMetadata) (c : RkContents)
    (hino1 : n.ino ≠ Node.ROOT_NODE_INO) (hino2 : n.ino ≠ Node.TRASH_NODE_INO)
    (hm : n.metadata = some m)
    (hc : n.content = some (RkContentChoice.HasSome c))
    (hs : '/' ∉ m.visible_name.toList)
    (h0 : m.visible_name.toList ≠ [])
    (h1 : m.visible_name.toList ≠ ['.'])
    (h2 : m.visible_name.toList ≠ ['.', '.']) :
    (c.file_type = RkFileType.PDF →
      n.get_visible_name =
        List.asString ((rsplitFileAtDot m.visible_name.toList).1 ++
          '.' :: String.toList "pdf") ∧
      ((rsplitFileAtDot m.visible_name.toList).2 = none →
        n.get_visible_name = m.visible_name ++ ".pdf")) ∧
    (c.file_type = RkFileType.EPUB →
      n.get_visible_name =
        List.asString ((rsplitFileAtDot m.visible_name.toList).1 ++
          '.' :: String.toList "epub") ∧
      ((rsplitFileAtDot m.visible_name.toList).2 = none →
        n.get_visible_name = m.visible_name ++ ".epub")) ∧
    ((c.file_type = RkFileType.Notebook ∨ c.file_type = RkFileType.Lines) →
      n.get_visible_name = m.visible_name) := by
  have hbase : n.get_basename = some m.visible_name :=
    get_basename_of_doc hino1 hino2 hm
  have hgen : ∀ ex : String, n.get_extension = some ex → ex.toList ≠ [] →
      n.get_visible_name =
        List.asString ((rsplitFileAtDot m.visible_name.toList).1 ++
          '.' :: ex.toList) := by
    intro ex hex hne
    unfold Node.get_visible_name
    split
    next ext hext =>
      rw [hex] at hext
      cases hext
      rw [hbase, Option.getD_some]
      exact setExtension_eq hs h0 h1 h2 hne
    next hext =>
      rw [hex] at hext
      cases hext
  have hnodot : ∀ ex : String,
      (rsplitFileAtDot m.visible_name.toList).2 = none →
      List.asString ((rsplitFileAtDot m.visible_name.toList).1 ++
        '.' :: ex.toList) = m.visible_name ++ ("." ++ ex) := by
    intro ex hrn
    apply String.ext
    show (rsplitFileAtDot m.visible_name.toList).1 ++ '.' :: ex.toList =
      (m.visible_name ++ ("." ++ ex)).data
    rw [rsplit_none_fst hrn]
    rw [String.data_append, String.data_append]
    rfl
  refine ⟨?_, ?_, ?_⟩
  · intro hft
    have hmain := hgen "pdf" (get_extension_pdf hc hft) (by decide)
    refine ⟨hmain, ?_⟩
    intro hrn
    rw [hmain, hnodot "pdf" hrn]
    rfl
  · intro hft
    have hmain := hgen "epub" (get_extension_epub hc hft) (by decide)
    refine ⟨hmain, ?_⟩
    intro hrn
    rw [hmain, hnodot "epub" hrn]
    rfl
  · intro hft
    unfold Node.get_visible_name
    split
    next ext hext =>
      rw [get_extension_notelines hc hft] at hext
      cases hext
    next hext =>
      rw [hbase, Option.getD_some]

/-- Witness for C5: the pdf document named Notes is displayed as
Notes.pdf, with the extension genuinely appended since the name has no
dot. -/
theorem C5_display_name_witness :
    docNode.get_visible_name =
      List.asString ((rsplitFileAtDot docMeta.visible_name.toList).1 ++
        '.' :: String.toList "pdf") ∧
    docNode.get_visible_name = docMeta.visible_name ++ ".pdf" := by
  have h := C5_display_name docNode docMeta ⟨RkFileType.PDF, 3⟩
    (by decide) (by decide) rfl rfl (by decide) (by decide) (by decide) (by decide)
  exact ⟨(h.1 rfl).1, (h.1 rfl).2 (by decide)⟩
